import Mathlib

/-!
Verification of the imapCleanup synchronization and deletion engine.

This file is a shallow embedding of the repository code:

* `db.py`          — SQLite store: `emails` table keyed by uid, singleton
                     `sync_state` row, `deleted_uids` tombstone table.
* `imap_client.py` — IMAP session: folder mode, uid listing, batched
                     header fetching, destructive deletion.
* `fetch.py`       — sync pipeline `fetch_all` and header/date normalizers.
* `delete.py`      — batched deletion engine `delete_emails`.

External library calls (sqlite, imaplib, email.header, email.utils) are
modelled as explicit state or as oracle parameters; the control flow around
them is translated from the source.
-/

set_option autoImplicit false

universe u

variable {α : Type u}

/-! ## Data model (db.py schema) -/

/-- One row of the `emails` table (db.py, CREATE TABLE emails).
`uid` is the primary key and is kept separately as the key of the row. -/
structure EmailRecord where
  message_id : Option String
  sender_raw : String
  sender_email : String
  sender_name : String
  recipient_raw : String
  subject : String
  date_header : String
  date_parsed : Option String
  size_bytes : Nat
deriving Repr, DecidableEq

/-- The persistent SQLite state: the `emails` table as an association list
keyed by uid in insertion order, the singleton `sync_state` row
(`last_uid`, `total_messages`; `last_sync` is a wall-clock timestamp and is
not modelled), and the `deleted_uids` tombstone table. -/
structure DB where
  emails : List (Nat × EmailRecord)
  last_uid : Nat
  total_messages : Nat
  deleted_uids : List Nat
deriving Repr, DecidableEq

/-- Primary-key lookup in the `emails` table. -/
def dbLookup (db : DB) (u : Nat) : Option EmailRecord :=
  match db.emails.find? (fun p => p.1 == u) with
  | some p => some p.2
  | none => none

/-- db.py `insert_email`: INSERT OR IGNORE keyed on the uid primary key.
Returns true iff a new row was inserted (cursor.rowcount > 0). -/
def insert_email (db : DB) (u : Nat) (r : EmailRecord) : Bool × DB :=
  match dbLookup db u with
  | some _ => (false, db)
  | none => (true, { db with emails := db.emails ++ [(u, r)] })

/-- One step of db.py `insert_emails_batch`: insert one record and count it
if it was new. -/
def insertStep (acc : Nat × DB) (p : Nat × EmailRecord) : Nat × DB :=
  match insert_email acc.2 p.1 p.2 with
  | (b, db) => (acc.1 + (if b then 1 else 0), db)

/-- db.py `insert_emails_batch`: sequential `insert_email` over the list,
returning the number of newly inserted rows. -/
def insert_emails_batch (db : DB) (recs : List (Nat × EmailRecord)) : Nat × DB :=
  recs.foldl insertStep (0, db)

/-- db.py `update_sync_state`: an unconditional UPDATE of the singleton
sync_state row. There is no comparison against the stored value. -/
def update_sync_state (db : DB) (lastUid totalMessages : Nat) : DB :=
  { db with last_uid := lastUid, total_messages := totalMessages }

/-- One INSERT OR IGNORE into the `deleted_uids` table. -/
def insertTombstone (ts : List Nat) (u : Nat) : List Nat :=
  if u ∈ ts then ts else ts ++ [u]

/-- db.py `mark_deleted`: INSERT OR IGNORE each uid into `deleted_uids`,
then DELETE the matching rows from `emails`, in one committed operation. -/
def mark_deleted (db : DB) (uids : List Nat) : DB :=
  { db with
    deleted_uids := uids.foldl insertTombstone db.deleted_uids,
    emails := db.emails.filter (fun p => decide (p.1 ∉ uids)) }

/-- db.py `get_deleted_uids`: the set of tombstoned uids. -/
def get_deleted_uids (db : DB) : List Nat :=
  db.deleted_uids

/-! ## IMAP session (imap_client.py) -/

/-- The mode in which the [Gmail]/All Mail folder is currently selected. -/
inductive FolderMode where
  | readOnly
  | readWrite
deriving Repr, DecidableEq

/-- The IMAP session state: the selected folder mode and the uids the remote
folder currently reports. -/
structure ImapSession where
  mode : FolderMode
  mailbox : List Nat
deriving Repr, DecidableEq

/-- The chunking loop shared by `fetch_headers_batch` (imap_client.py) and
`delete_emails` (delete.py): `for i in range(0, len(uids), B): uids[i:i+B]`.
Recursion is by fuel; with fuel at least the list length and `0 < B` the
fuel never runs out, which matches Python where `range` with step `B = 0`
raises ValueError. -/
def chunksGo (B : Nat) : Nat → List α → List (List α)
  | _, [] => []
  | 0, _ :: _ => []
  | fuel + 1, a :: l => (a :: l).take B :: chunksGo B fuel ((a :: l).drop B)

/-- The successive slices `uids[i:i+B]` for `i in range(0, len(uids), B)`. -/
def pyChunks (B : Nat) (l : List α) : List (List α) :=
  chunksGo B l.length l

/-- imap_client.py `fetch_headers_batch`: the generator yields one
`fetch_headers` result per slice `uids[i:i+batch_size]`. We embed the
sequence of per-chunk uid lists; the rate-limit sleep between chunks does
not affect the values produced. -/
def fetch_headers_batch (uids : List Nat) (batchSize : Nat) : List (List Nat) :=
  pyChunks batchSize uids

/-- imap_client.py `delete_messages`. `storeOk` models whether the
`UID STORE +FLAGS (\Deleted)` command returns OK; on failure the source
raises RuntimeError before the final re-select, leaving the folder selected
read-write. On success the count returned is `len(uids)`, computed without
consulting the remote mailbox. -/
def delete_messages (s : ImapSession) (uids : List Nat) (expunge : Bool)
    (storeOk : Bool) : Except String Nat × ImapSession :=
  if uids.isEmpty then (Except.ok 0, s)
  else
    let s₁ : ImapSession := { s with mode := FolderMode.readWrite }
    if storeOk then
      let s₂ : ImapSession :=
        if expunge then
          { s₁ with mailbox := s₁.mailbox.filter (fun u => decide (u ∉ uids)) }
        else s₁
      (Except.ok uids.length, { s₂ with mode := FolderMode.readOnly })
    else
      (Except.error "Failed to mark deleted", s₁)

/-! ## Identifier enumeration (imap_client.py) -/

/-- The remote folder as seen by the enumeration commands: the uid list the
`UID SEARCH ALL` command reports (the source sorts it ascending; order is
irrelevant to the claims below) and the UIDNEXT value. -/
structure Remote where
  mailbox : List Nat
  uidnext : Nat
deriving Repr, DecidableEq

/-- imap_client.py `search_all`: all uids currently listed remotely. -/
def search_all (r : Remote) : List Nat :=
  r.mailbox

/-- imap_client.py `search_since_uid`: client-side filter of the full
listing to uids strictly greater than `minUid`. -/
def search_since_uid (r : Remote) (minUid : Nat) : List Nat :=
  (search_all r).filter (fun u => decide (minUid < u))

/-! ## Sync pipeline (fetch.py fetch_all) -/

/-- The stats dict returned by fetch.py `fetch_all`. -/
structure FetchStats where
  total_fetched : Nat
  new_stored : Nat
  already_existed : Nat
  errors : Nat
deriving Repr, DecidableEq

/-- The uid list `fetch_all` passes to `fetch_headers_batch`: the
enumeration result (incremental when `last_uid > 0`, otherwise the full
listing) with previously deleted uids filtered out (fetch.py lines
193-210). -/
def fetchCandidates (db : DB) (remote : Remote) (incremental : Bool) : List Nat :=
  let uids0 :=
    if incremental then
      if 0 < db.last_uid then search_since_uid remote db.last_uid
      else search_all remote
    else search_all remote
  uids0.filter (fun u => decide (u ∉ get_deleted_uids db))

/-- The records `fetch_all` accumulates for insertion: `fetchOk u` models
whether the FETCH response contains uid `u` at all (records the response
parser drops are skipped silently), and `parseRec u` is the outcome of
`parse_headers` on the returned data (`none` when it raises, which the
source counts as an error). -/
def parsedRecords (fetchOk : Nat → Bool) (parseRec : Nat → Option EmailRecord)
    (uids : List Nat) : List (Nat × EmailRecord) :=
  (uids.filter fetchOk).filterMap (fun u => (parseRec u).map (fun r => (u, r)))

/-- The per-record parse failures counted into `stats.errors`. -/
def parseErrors (fetchOk : Nat → Bool) (parseRec : Nat → Option EmailRecord)
    (uids : List Nat) : Nat :=
  ((uids.filter fetchOk).filter (fun u => (parseRec u).isNone)).length

/-- fetch.py `fetch_all`. The enumerated candidates are fetched in batches
and the parsed records inserted via `insert_emails_batch` (the `batch_size`
grouping only sets FETCH request and transaction boundaries and does not
change the final stored state, so the insertion is embedded as one pass in
response order). When the candidate list is empty the function returns
early; otherwise it ends by calling `update_sync_state` with `max(uids)`
over ALL enumerated candidates and the remote UIDNEXT value. -/
def fetch_all (db : DB) (remote : Remote) (fetchOk : Nat → Bool)
    (parseRec : Nat → Option EmailRecord) (incremental : Bool) :
    FetchStats × DB :=
  let uids := fetchCandidates db remote incremental
  if uids.isEmpty then
    ({ total_fetched := 0, new_stored := 0, already_existed := 0, errors := 0 }, db)
  else
    let parsed := parsedRecords fetchOk parseRec uids
    let res := insert_emails_batch db parsed
    let maxUid := uids.foldl max 0
    ({ total_fetched := parsed.length,
       new_stored := res.1,
       already_existed := parsed.length - res.1,
       errors := parseErrors fetchOk parseRec uids },
     update_sync_state res.2 maxUid remote.uidnext)

/-! ## Deletion engine (delete.py delete_emails) -/

/-- The stats dict returned by delete.py `delete_emails`. The `not_found`
key is initialized to 0 and never updated by the source. -/
structure DeleteStats where
  deleted : Nat
  errors : Nat
  not_found : Nat
deriving Repr, DecidableEq

/-- One iteration of the batch loop in delete.py `delete_emails`:
try { delete via IMAP, add the returned count, mark_deleted locally }
except { errors += len(batch), local state untouched }. `batchOk` is the
failure oracle: whether this batch's STORE command succeeds. -/
def deleteStep (batchOk : List Nat → Bool) (acc : DeleteStats × DB × ImapSession)
    (c : List Nat) : DeleteStats × DB × ImapSession :=
  match delete_messages acc.2.2 c true (batchOk c) with
  | (Except.ok n, s') =>
      ({ acc.1 with deleted := acc.1.deleted + n }, mark_deleted acc.2.1 c, s')
  | (Except.error _, s') =>
      ({ acc.1 with errors := acc.1.errors + c.length }, acc.2.1, s')

/-- delete.py `delete_emails`: early return on an empty uid list, otherwise
the batch loop over the slices `uids[i:i+batch_size]` with per-batch error
recovery. The inter-batch sleep does not affect the values produced. -/
def delete_emails (s : ImapSession) (db : DB) (uids : List Nat)
    (batchSize : Nat) (batchOk : List Nat → Bool) :
    DeleteStats × DB × ImapSession :=
  if uids.isEmpty then ({ deleted := 0, errors := 0, not_found := 0 }, db, s)
  else
    (pyChunks batchSize uids).foldl (deleteStep batchOk)
      ({ deleted := 0, errors := 0, not_found := 0 }, db, s)

/-! ## Record normalizer (fetch.py decode_header_value, parse_date)

The stdlib calls (`email.header.decode_header`, `bytes.decode`,
`email.utils.parsedate_to_datetime`) are oracle parameters that may raise;
`Except PyErr` is the embedding of a Python call that either returns or
raises. The control flow around them is translated from the source. -/

/-- The classes of Python exception the source distinguishes: the pair
(UnicodeDecodeError, LookupError) caught by the charset fallback, and every
other exception. -/
inductive PyErr where
  | unicodeOrLookup
  | other
deriving Repr, DecidableEq

/-- One element of the list `email.header.decode_header` returns: either
raw bytes with an optional declared charset, or an already decoded string. -/
inductive HeaderPart (Bytes : Type) where
  | bytesPart (data : Bytes) (charset : Option String)
  | strPart (s : String)

/-- The stdlib operations `decode_header_value` calls, as oracles over an
abstract byte-string type. -/
structure DecodeOracle (Bytes : Type) where
  decodeHeaderFn : String → Except PyErr (List (HeaderPart Bytes))
  decodeAs : Bytes → String → Except PyErr String
  decodeUtf8Replace : Bytes → Except PyErr String
  decodeLatin1Replace : Bytes → Except PyErr String

/-- The per-part body of the loop in fetch.py `decode_header_value`:
try the declared charset (defaulting to utf-8); on UnicodeDecodeError or
LookupError fall back to utf-8 with replacement, and if that raises
anything, to latin-1 with replacement. Any other exception propagates. -/
def decodePart {Bytes : Type} (O : DecodeOracle Bytes) :
    HeaderPart Bytes → Except PyErr String
  | HeaderPart.strPart s => Except.ok s
  | HeaderPart.bytesPart data charset =>
    match O.decodeAs data (charset.getD "utf-8") with
    | Except.ok s => Except.ok s
    | Except.error PyErr.unicodeOrLookup =>
      match O.decodeUtf8Replace data with
      | Except.ok s => Except.ok s
      | Except.error _ => O.decodeLatin1Replace data
    | Except.error PyErr.other => Except.error PyErr.other

/-- The result accumulation loop of `decode_header_value`; the first
uncaught exception aborts the loop. -/
def decodeParts {Bytes : Type} (O : DecodeOracle Bytes) :
    List (HeaderPart Bytes) → Except PyErr (List String)
  | [] => Except.ok []
  | p :: ps =>
    match decodePart O p with
    | Except.error e => Except.error e
    | Except.ok s =>
      match decodeParts O ps with
      | Except.error e => Except.error e
      | Except.ok ss => Except.ok (s :: ss)

/-- fetch.py `decode_header_value`: empty or missing input decodes to "";
otherwise the decode pipeline runs inside a try block whose except clause
returns `str(value)`, i.e. the original string. The `Except` result type
records that a Python function can in principle raise; the theorems below
show this one never does. -/
def decode_header_value {Bytes : Type} (O : DecodeOracle Bytes)
    (value : Option String) : Except PyErr String :=
  match value with
  | none => Except.ok ""
  | some v =>
    if v = "" then Except.ok ""
    else
      match O.decodeHeaderFn v with
      | Except.error _ => Except.ok v
      | Except.ok parts =>
        match decodeParts O parts with
        | Except.error _ => Except.ok v
        | Except.ok ss => Except.ok (String.join ss)

/-- fetch.py `parse_date`: empty input yields None; otherwise
`parsedate_to_datetime` plus UTC normalization and `isoformat` (modelled
together as the oracle `pd`) runs inside a try block whose except clause
returns None. -/
def parse_date (pd : String → Except PyErr String) (dateHeader : String) :
    Except PyErr (Option String) :=
  if dateHeader = "" then Except.ok none
  else
    match pd dateHeader with
    | Except.ok iso => Except.ok (some iso)
    | Except.error _ => Except.ok none

/-- Helper: the value of a Python call that was wrapped so that exceptions
become None. -/
def exceptToOption {ε : Type} {β : Type} : Except ε β → Option β
  | Except.ok a => some a
  | Except.error _ => none

/-! ## Lemmas about the chunking loop -/

lemma ceil_div_step (B m : Nat) (hB : 0 < B) (hm : 0 < m) :
    (m - B + B - 1) / B + 1 = (m + B - 1) / B := by
  have hmB : m + B - 1 = m - 1 + B := by omega
  have h1 : (m - 1 + B) / B = (m - 1) / B + 1 := by
    simpa [Nat.succ_eq_add_one] using Nat.add_div_right (m - 1) hB
  rcases le_or_lt m B with h | h
  · have e0 : m - B + B - 1 = B - 1 := by omega
    have e1 : (B - 1) / B = 0 := Nat.div_eq_of_lt (by omega)
    have e2 : (m - 1) / B = 0 := Nat.div_eq_of_lt (by omega)
    rw [e0, e1, hmB, h1, e2]
  · have e3 : m - B + B - 1 = m - B - 1 + B := by omega
    have h2 : (m - B - 1 + B) / B = (m - B - 1) / B + 1 := by
      simpa [Nat.succ_eq_add_one] using Nat.add_div_right (m - B - 1) hB
    have e4 : m - 1 = m - B - 1 + B := by omega
    rw [e3, h2, hmB, h1, e4, h2]

lemma chunksGo_join (B : Nat) (hB : 0 < B) :
    ∀ (fuel : Nat) (l : List α), l.length ≤ fuel → (chunksGo B fuel l).flatten = l := by
  intro fuel
  induction fuel with
  | zero =>
    intro l hl
    have hnil : l = [] := List.eq_nil_of_length_eq_zero (by omega)
    subst hnil
    simp [chunksGo]
  | succ n ih =>
    intro l hl
    cases l with
    | nil => simp [chunksGo]
    | cons a t =>
      have hle : (List.drop B (a :: t)).length ≤ n := by
        simp only [List.length_drop, List.length_cons] at hl ⊢
        omega
      simp only [chunksGo, List.flatten_cons, ih _ hle]
      exact List.take_append_drop B (a :: t)

lemma chunksGo_length (B : Nat) (hB : 0 < B) :
    ∀ (fuel : Nat) (l : List α), l.length ≤ fuel →
      (chunksGo B fuel l).length = (l.length + B - 1) / B := by
  intro fuel
  induction fuel with
  | zero =>
    intro l hl
    have hnil : l = [] := List.eq_nil_of_length_eq_zero (by omega)
    subst hnil
    have hz : (B - 1) / B = 0 := Nat.div_eq_of_lt (by omega)
    simp [chunksGo, hz]
  | succ n ih =>
    intro l hl
    cases l with
    | nil =>
      have hz : (B - 1) / B = 0 := Nat.div_eq_of_lt (by omega)
      simp [chunksGo, hz]
    | cons a t =>
      have hd : (List.drop B (a :: t)).length = t.length + 1 - B := by
        simp [List.length_drop]
      have hle : (List.drop B (a :: t)).length ≤ n := by
        simp only [List.length_drop, List.length_cons] at hl ⊢
        omega
      simp only [chunksGo, List.length_cons, ih _ hle, hd]
      exact ceil_div_step B (t.length + 1) hB (Nat.succ_pos _)

lemma chunksGo_mem (B : Nat) (hB : 0 < B) :
    ∀ (fuel : Nat) (l : List α) (c : List α), c ∈ chunksGo B fuel l →
      c.length ≤ B ∧ c ≠ [] := by
  intro fuel
  induction fuel with
  | zero =>
    intro l c hc
    cases l with
    | nil => simp [chunksGo] at hc
    | cons a t => simp [chunksGo] at hc
  | succ n ih =>
    intro l c hc
    cases l with
    | nil => simp [chunksGo] at hc
    | cons a t =>
      simp only [chunksGo, List.mem_cons] at hc
      rcases hc with h | h
      · subst h
        refine ⟨by rw [List.length_take]; omega, ?_⟩
        cases B with
        | zero => exact absurd hB (by omega)
        | succ b => simp [List.take_succ_cons]
      · exact ih _ c h

lemma pyChunks_join (B : Nat) (hB : 0 < B) (l : List α) : (pyChunks B l).flatten = l :=
  chunksGo_join B hB l.length l (Nat.le_refl _)

lemma pyChunks_length (B : Nat) (hB : 0 < B) (l : List α) :
    (pyChunks B l).length = (l.length + B - 1) / B :=
  chunksGo_length B hB l.length l (Nat.le_refl _)

lemma pyChunks_mem (B : Nat) (hB : 0 < B) (l : List α) (c : List α)
    (hc : c ∈ pyChunks B l) : c.length ≤ B ∧ c ≠ [] :=
  chunksGo_mem B hB l.length l c hc

/-- C5: for every identifier list of length N and every batch size B greater
than zero, the batched retriever issues exactly ceil(N/B) = (N + B - 1) / B
chunks, each chunk has size at most B, and the concatenation of the chunks
is exactly the input list, so the chunks are contiguous slices covering
every identifier exactly once in the original order. -/
theorem fetch_headers_batch_partitions (uids : List Nat) (B : Nat) (hB : 0 < B) :
    (fetch_headers_batch uids B).length = (uids.length + B - 1) / B ∧
    (∀ c ∈ fetch_headers_batch uids B, c.length ≤ B) ∧
    (fetch_headers_batch uids B).flatten = uids := by
  refine ⟨pyChunks_length B hB uids, ?_, pyChunks_join B hB uids⟩
  intro c hc
  exact (pyChunks_mem B hB uids c hc).1

/-- C5 witness: with 10 identifiers and batch size 3 the retriever issues
4 chunks of size at most 3 whose concatenation is the input. -/
theorem fetch_headers_batch_partitions_witness :
    0 < 3 ∧
    ((fetch_headers_batch [1, 2, 3, 4, 5, 6, 7, 8, 9, 10] 3).length =
        (([1, 2, 3, 4, 5, 6, 7, 8, 9, 10] : List Nat).length + 3 - 1) / 3 ∧
      (∀ c ∈ fetch_headers_batch [1, 2, 3, 4, 5, 6, 7, 8, 9, 10] 3, c.length ≤ 3) ∧
      (fetch_headers_batch [1, 2, 3, 4, 5, 6, 7, 8, 9, 10] 3).flatten =
        [1, 2, 3, 4, 5, 6, 7, 8, 9, 10]) :=
  ⟨by decide,
   fetch_headers_batch_partitions [1, 2, 3, 4, 5, 6, 7, 8, 9, 10] 3 (by decide)⟩

/-! ## Lemmas about the store -/

lemma find?_append_of_some {β : Type u} (p : β → Bool) (l₁ l₂ : List β) (a : β)
    (h : l₁.find? p = some a) : (l₁ ++ l₂).find? p = some a := by
  induction l₁ with
  | nil => simp at h
  | cons x t ih =>
    by_cases hx : p x = true
    · rw [List.find?_cons_of_pos _ hx] at h
      rw [List.cons_append, List.find?_cons_of_pos _ hx]
      exact h
    · rw [List.find?_cons_of_neg _ hx] at h
      rw [List.cons_append, List.find?_cons_of_neg _ hx]
      exact ih h

lemma find?_append_of_none {β : Type u} (p : β → Bool) (l₁ l₂ : List β)
    (h : l₁.find? p = none) : (l₁ ++ l₂).find? p = l₂.find? p := by
  induction l₁ with
  | nil => simp
  | cons x t ih =>
    by_cases hx : p x = true
    · rw [List.find?_cons_of_pos _ hx] at h
      exact absurd h (by simp)
    · rw [List.find?_cons_of_neg _ hx] at h
      rw [List.cons_append, List.find?_cons_of_neg _ hx]
      exact ih h

lemma dbLookup_eq_none_iff (db : DB) (u : Nat) :
    dbLookup db u = none ↔ db.emails.find? (fun p => p.1 == u) = none := by
  unfold dbLookup
  cases db.emails.find? (fun p => p.1 == u) <;> simp

lemma insert_email_of_some (db : DB) (u : Nat) (r c : EmailRecord)
    (h : dbLookup db u = some c) : insert_email db u r = (false, db) := by
  simp [insert_email, h]

lemma insert_email_of_none (db : DB) (u : Nat) (r : EmailRecord)
    (h : dbLookup db u = none) :
    insert_email db u r = (true, { db with emails := db.emails ++ [(u, r)] }) := by
  simp [insert_email, h]

lemma dbLookup_insert_self (db : DB) (u : Nat) (r : EmailRecord)
    (h : dbLookup db u = none) :
    dbLookup (insert_email db u r).2 u = some r := by
  rw [insert_email_of_none db u r h]
  have hf : db.emails.find? (fun p => p.1 == u) = none :=
    (dbLookup_eq_none_iff db u).1 h
  unfold dbLookup
  rw [show ({ db with emails := db.emails ++ [(u, r)] } : DB).emails
        = db.emails ++ [(u, r)] from rfl]
  rw [find?_append_of_none _ _ _ hf]
  simp [List.find?]

lemma dbLookup_insert_of_some (db : DB) (w : Nat) (r : EmailRecord) (v : Nat)
    (c : EmailRecord) (h : dbLookup db v = some c) :
    dbLookup (insert_email db w r).2 v = some c := by
  cases hw : dbLookup db w with
  | some d => rw [insert_email_of_some db w r d hw]; exact h
  | none =>
    rw [insert_email_of_none db w r hw]
    unfold dbLookup at h ⊢
    cases hf : db.emails.find? (fun p => p.1 == v) with
    | none => rw [hf] at h; simp at h
    | some q =>
      rw [hf] at h
      rw [show ({ db with emails := db.emails ++ [(w, r)] } : DB).emails
            = db.emails ++ [(w, r)] from rfl]
      rw [find?_append_of_some _ _ _ _ hf]
      exact h

lemma dbLookup_insert_isSome (db : DB) (u : Nat) (r : EmailRecord) :
    ∃ c, dbLookup (insert_email db u r).2 u = some c := by
  cases h : dbLookup db u with
  | some c => exact ⟨c, by rw [insert_email_of_some db u r c h]; exact h⟩
  | none => exact ⟨r, dbLookup_insert_self db u r h⟩

lemma insert_email_state (db : DB) (u : Nat) (r : EmailRecord) :
    (insert_email db u r).2.deleted_uids = db.deleted_uids ∧
    (insert_email db u r).2.last_uid = db.last_uid ∧
    (insert_email db u r).2.total_messages = db.total_messages := by
  unfold insert_email
  cases dbLookup db u <;> simp

lemma insertStep_snd (acc : Nat × DB) (p : Nat × EmailRecord) :
    (insertStep acc p).2 = (insert_email acc.2 p.1 p.2).2 := rfl

lemma foldl_insertStep_state (recs : List (Nat × EmailRecord)) :
    ∀ acc : Nat × DB,
      (recs.foldl insertStep acc).2.deleted_uids = acc.2.deleted_uids ∧
      (recs.foldl insertStep acc).2.last_uid = acc.2.last_uid ∧
      (recs.foldl insertStep acc).2.total_messages = acc.2.total_messages := by
  induction recs with
  | nil => intro acc; exact ⟨rfl, rfl, rfl⟩
  | cons p t ih =>
    intro acc
    obtain ⟨h1, h2, h3⟩ := ih (insertStep acc p)
    obtain ⟨g1, g2, g3⟩ := insert_email_state acc.2 p.1 p.2
    rw [List.foldl_cons]
    exact ⟨by rw [h1, insertStep_snd, g1], by rw [h2, insertStep_snd, g2],
      by rw [h3, insertStep_snd, g3]⟩

lemma foldl_insertStep_lookup_some (recs : List (Nat × EmailRecord)) :
    ∀ (acc : Nat × DB) (v : Nat) (c : EmailRecord), dbLookup acc.2 v = some c →
      dbLookup ((recs.foldl insertStep acc).2) v = some c := by
  induction recs with
  | nil => intro acc v c h; exact h
  | cons p t ih =>
    intro acc v c h
    rw [List.foldl_cons]
    refine ih _ v c ?_
    rw [insertStep_snd]
    exact dbLookup_insert_of_some acc.2 p.1 p.2 v c h

lemma foldl_insertStep_mem (recs : List (Nat × EmailRecord)) :
    ∀ acc : Nat × DB, ∀ p ∈ recs, ∃ c,
      dbLookup ((recs.foldl insertStep acc).2) p.1 = some c := by
  induction recs with
  | nil => intro acc p hp; simp at hp
  | cons q t ih =>
    intro acc p hp
    rw [List.foldl_cons]
    rcases List.mem_cons.1 hp with h | h
    · subst h
      obtain ⟨c, hc⟩ := dbLookup_insert_isSome acc.2 p.1 p.2
      refine ⟨c, foldl_insertStep_lookup_some t _ p.1 c ?_⟩
      rw [insertStep_snd]
      exact hc
    · exact ih _ p h

lemma foldl_insertStep_frozen (recs : List (Nat × EmailRecord)) :
    ∀ acc : Nat × DB, (∀ p ∈ recs, ∃ c, dbLookup acc.2 p.1 = some c) →
      recs.foldl insertStep acc = acc := by
  induction recs with
  | nil => intro acc _; rfl
  | cons q t ih =>
    intro acc hall
    obtain ⟨c, hc⟩ := hall q (by simp)
    have hstep : insertStep acc q = acc := by
      unfold insertStep
      rw [insert_email_of_some acc.2 q.1 q.2 c hc]
      simp
    rw [List.foldl_cons, hstep]
    exact ih acc (fun p hp => hall p (by simp [hp]))

/-! ## C6: dedup by uid primary key -/

/-- One call of `insert_email` inside a sequence, recording the returned
Bool. -/
def insertCallStep (acc : List Bool × DB) (p : Nat × EmailRecord) :
    List Bool × DB :=
  (acc.1 ++ [(insert_email acc.2 p.1 p.2).1], (insert_email acc.2 p.1 p.2).2)

/-- A sequence of `insert_email` calls against the store, recording every
returned Bool in order. -/
def runInserts (db : DB) (ops : List (Nat × EmailRecord)) : List Bool × DB :=
  ops.foldl insertCallStep ([], db)

lemma runInserts_frozen (u : Nat) (c : EmailRecord) :
    ∀ (ops : List (Nat × EmailRecord)) (bs : List Bool) (db : DB),
      dbLookup db u = some c → (∀ p ∈ ops, p.1 = u) →
      ops.foldl insertCallStep (bs, db) =
        (bs ++ List.replicate ops.length false, db) := by
  intro ops
  induction ops with
  | nil => intro bs db h hall; simp
  | cons q t ih =>
    intro bs db h hall
    have hq : q.1 = u := hall q (by simp)
    have h1 : insert_email db q.1 q.2 = (false, db) := by
      rw [hq]
      exact insert_email_of_some db u q.2 c h
    have hstep : insertCallStep (bs, db) q = (bs ++ [false], db) := by
      unfold insertCallStep
      rw [h1]
    rw [List.foldl_cons, hstep,
      ih (bs ++ [false]) db h (fun p hp => hall p (by simp [hp]))]
    simp [List.replicate_succ]

/-- C6: for a uid not yet present, the first insert returns true, and every
later insert with that uid, with possibly different content, returns false
and leaves the stored record equal to the first one, so `insert_email`
returns true exactly once across the sequence. -/
theorem insert_email_dedup (db : DB) (u : Nat) (first : EmailRecord)
    (rest : List (Nat × EmailRecord)) (h0 : dbLookup db u = none)
    (hrest : ∀ p ∈ rest, p.1 = u) :
    (runInserts db ((u, first) :: rest)).1 =
      true :: List.replicate rest.length false ∧
    dbLookup (runInserts db ((u, first) :: rest)).2 u = some first := by
  have hlook : dbLookup (insert_email db u first).2 u = some first :=
    dbLookup_insert_self db u first h0
  have hstep : insertCallStep ([], db) (u, first) =
      ([true], (insert_email db u first).2) := by
    unfold insertCallStep
    rw [insert_email_of_none db u first h0]
    rfl
  unfold runInserts
  rw [List.foldl_cons, hstep,
    runInserts_frozen u first rest [true] (insert_email db u first).2 hlook hrest]
  exact ⟨rfl, hlook⟩

/-- An empty store, used by concrete instances below. -/
def dbEmpty : DB := { emails := [], last_uid := 0, total_messages := 0, deleted_uids := [] }

/-- A concrete record used by concrete instances below. -/
def recA : EmailRecord :=
  { message_id := none, sender_raw := "", sender_email := "", sender_name := "",
    recipient_raw := "", subject := "", date_header := "", date_parsed := none,
    size_bytes := 0 }

/-- A second concrete record with different content. -/
def recB : EmailRecord :=
  { message_id := none, sender_raw := "", sender_email := "", sender_name := "",
    recipient_raw := "", subject := "x", date_header := "", date_parsed := none,
    size_bytes := 1 }

/-- C6 witness: inserting uid 5 three times (the second and third with
different content) returns true, false, false and keeps the first record. -/
theorem insert_email_dedup_witness :
    dbLookup dbEmpty 5 = none ∧
    (∀ p ∈ ([(5, recB), (5, recA)] : List (Nat × EmailRecord)), p.1 = 5) ∧
    ((runInserts dbEmpty ((5, recA) :: [(5, recB), (5, recA)])).1 =
        true :: List.replicate ([(5, recB), (5, recA)] : List (Nat × EmailRecord)).length false ∧
      dbLookup (runInserts dbEmpty ((5, recA) :: [(5, recB), (5, recA)])).2 5 = some recA) :=
  ⟨by decide, by decide,
   insert_email_dedup dbEmpty 5 recA [(5, recB), (5, recA)] (by decide) (by decide)⟩

/-! ## C2: cursor update is unconditional -/

/-- A store whose cursor is 5, used as the C2 counterexample input. -/
def dbC2 : DB := { emails := [], last_uid := 5, total_messages := 0, deleted_uids := [] }

/-- C2 counterexample: with stored cursor 5, calling `update_sync_state`
with the smaller value 3 is not a no-op; the stored cursor becomes 3. -/
theorem update_sync_state_not_monotone :
    (update_sync_state dbC2 3 7).last_uid = 3 ∧
    (update_sync_state dbC2 3 7).last_uid ≠ dbC2.last_uid := by
  exact ⟨rfl, by decide⟩

/-- C2 amended: `update_sync_state` is an unconditional write: for every
stored cursor value and every argument, the stored cursor becomes exactly
the argument (and the total_messages estimate is overwritten too), with no
monotonicity comparison; the emails table and tombstone set are untouched. -/
theorem update_sync_state_unconditional (db : DB) (lu tm : Nat) :
    (update_sync_state db lu tm).last_uid = lu ∧
    (update_sync_state db lu tm).total_messages = tm ∧
    (update_sync_state db lu tm).emails = db.emails ∧
    (update_sync_state db lu tm).deleted_uids = db.deleted_uids :=
  ⟨rfl, rfl, rfl, rfl⟩

/-! ## C3: folder mode on the exit paths of delete_messages -/

/-- A session selected read-only, used as the C3 counterexample input. -/
def sC3 : ImapSession := { mode := FolderMode.readOnly, mailbox := [1, 2, 3] }

/-- C3 counterexample: when the STORE step fails, `delete_messages` exits
with the error while the folder is left selected read-write; the read-only
re-select does not happen on this exit path. -/
theorem delete_messages_mode_leak :
    (delete_messages sC3 [1] true false).1 = Except.error "Failed to mark deleted" ∧
    (delete_messages sC3 [1] true false).2.mode = FolderMode.readWrite :=
  ⟨rfl, rfl⟩

/-- C3 amended: the folder is re-selected read-only only on the success
path; when the STORE step fails the call exits with the folder selected
read-write, and with an empty uid list the mode is never touched. -/
theorem delete_messages_mode (s : ImapSession) (uids : List Nat)
    (expunge storeOk : Bool) :
    (delete_messages s uids expunge storeOk).2.mode =
      (if uids.isEmpty then s.mode
       else if storeOk then FolderMode.readOnly else FolderMode.readWrite) := by
  by_cases h : uids.isEmpty
  · simp [delete_messages, h]
  · cases storeOk <;> simp [delete_messages, h]

/-! ## C4: tombstoned uids are excluded before fetching -/

/-- C4: every uid in the tombstone set is filtered out of the candidate
list that `fetch_all` hands to the batched retriever, for both incremental
and full-resync modes, whatever the remote listing reports. -/
theorem tombstone_excluded (db : DB) (remote : Remote) (incremental : Bool)
    (u : Nat) (h : u ∈ get_deleted_uids db) :
    u ∉ fetchCandidates db remote incremental := by
  intro hmem
  simp only [fetchCandidates, List.mem_filter, decide_eq_true_eq] at hmem
  exact hmem.2 h

/-- A store that has tombstoned uid 20, used by the C4 witness. -/
def dbC4 : DB := { emails := [], last_uid := 30, total_messages := 0, deleted_uids := [20] }

/-- A remote listing that still reports the tombstoned uid 20. -/
def remoteC4 : Remote := { mailbox := [10, 20, 40], uidnext := 41 }

/-- C4 witness: uid 20 is tombstoned, the remote listing still reports it,
and the full-resync candidate list excludes it. -/
theorem tombstone_excluded_witness :
    20 ∈ get_deleted_uids dbC4 ∧ 20 ∉ fetchCandidates dbC4 remoteC4 false :=
  ⟨by decide, tombstone_excluded dbC4 remoteC4 false 20 (by decide)⟩

/-! ## Lemmas about fetch_all -/

lemma update_sync_state_last (d : DB) (a b : Nat) :
    (update_sync_state d a b).last_uid = a := rfl

lemma update_sync_state_deleted (d : DB) (a b : Nat) :
    (update_sync_state d a b).deleted_uids = d.deleted_uids := rfl

lemma dbLookup_update (d : DB) (a b v : Nat) :
    dbLookup (update_sync_state d a b) v = dbLookup d v := rfl

lemma fetch_all_empty (db : DB) (remote : Remote) (fOk : Nat → Bool)
    (p : Nat → Option EmailRecord) (inc : Bool)
    (h : (fetchCandidates db remote inc).isEmpty = true) :
    fetch_all db remote fOk p inc =
      ({ total_fetched := 0, new_stored := 0, already_existed := 0, errors := 0 }, db) := by
  simp [fetch_all, h]

lemma fetch_all_nonempty (db : DB) (remote : Remote) (fOk : Nat → Bool)
    (p : Nat → Option EmailRecord) (inc : Bool)
    (h : (fetchCandidates db remote inc).isEmpty = false) :
    fetch_all db remote fOk p inc =
      ({ total_fetched := (parsedRecords fOk p (fetchCandidates db remote inc)).length,
         new_stored := (insert_emails_batch db (parsedRecords fOk p (fetchCandidates db remote inc))).1,
         already_existed := (parsedRecords fOk p (fetchCandidates db remote inc)).length -
           (insert_emails_batch db (parsedRecords fOk p (fetchCandidates db remote inc))).1,
         errors := parseErrors fOk p (fetchCandidates db remote inc) },
       update_sync_state (insert_emails_batch db (parsedRecords fOk p (fetchCandidates db remote inc))).2
         ((fetchCandidates db remote inc).foldl max 0) remote.uidnext) := by
  simp [fetch_all, h]

lemma fetch_all_deleted_uids (db : DB) (remote : Remote) (fOk : Nat → Bool)
    (p : Nat → Option EmailRecord) (inc : Bool) :
    (fetch_all db remote fOk p inc).2.deleted_uids = db.deleted_uids := by
  cases hc : (fetchCandidates db remote inc).isEmpty with
  | true => rw [fetch_all_empty db remote fOk p inc hc]
  | false =>
    rw [fetch_all_nonempty db remote fOk p inc hc]
    show (update_sync_state _ _ _).deleted_uids = _
    rw [update_sync_state_deleted]
    exact (foldl_insertStep_state _ (0, db)).1

lemma fetchCandidates_congr (db db' : DB) (remote : Remote)
    (h : db.deleted_uids = db'.deleted_uids) :
    fetchCandidates db remote false = fetchCandidates db' remote false := by
  simp [fetchCandidates, get_deleted_uids, h]

/-! ## C1: what the cursor actually advances to -/

/-- A remote listing with uids 1 and 2, used by the C1 counterexample. -/
def remoteC1 : Remote := { mailbox := [1, 2], uidnext := 3 }

/-- A parse oracle under which uid 1 parses to `recA` and uid 2 raises in
`parse_headers` (so its record is counted as an error and never stored). -/
def parseC1 : Nat → Option EmailRecord := fun u => if u = 1 then some recA else none

/-- C1 counterexample: on a first sync over uids 1 and 2 where the record
for uid 2 fails to parse and is never persisted, the run still calls
`update_sync_state` with max(uids) = 2: the cursor advances to 2, past the
identifier 2 that was never durably stored (the maximum persisted uid
is 1). -/
theorem fetch_all_cursor_overshoot :
    (fetch_all dbEmpty remoteC1 (fun _ => true) parseC1 true).2.last_uid = 2 ∧
    dbLookup (fetch_all dbEmpty remoteC1 (fun _ => true) parseC1 true).2 2 = none ∧
    dbLookup (fetch_all dbEmpty remoteC1 (fun _ => true) parseC1 true).2 1 = some recA :=
  ⟨by decide, by decide, by decide⟩

/-- C1 amended: at the end of a `fetch_all` run, the cursor is set to the
maximum uid among ALL enumerated (tombstone-filtered) candidate uids of the
run, whether or not each record was fetched, parsed and persisted; when the
candidate list is empty the cursor is unchanged. -/
theorem fetch_all_cursor (db : DB) (remote : Remote) (fOk : Nat → Bool)
    (p : Nat → Option EmailRecord) (inc : Bool) :
    (fetch_all db remote fOk p inc).2.last_uid =
      (if (fetchCandidates db remote inc).isEmpty then db.last_uid
       else (fetchCandidates db remote inc).foldl max 0) := by
  cases hc : (fetchCandidates db remote inc).isEmpty with
  | true => rw [fetch_all_empty db remote fOk p inc hc]; simp
  | false =>
    rw [fetch_all_nonempty db remote fOk p inc hc]
    simp [update_sync_state_last]

/-! ## C7: idempotence of a repeated full sync -/

/-- C7: running a full sync twice in a row against an unchanged remote
mailbox (same listing, same fetch and parse outcomes) inserts zero new
records during the second run and leaves the stored cursor unchanged. -/
theorem fetch_all_idempotent (db : DB) (remote : Remote) (fOk : Nat → Bool)
    (p : Nat → Option EmailRecord) :
    (fetch_all (fetch_all db remote fOk p false).2 remote fOk p false).1.new_stored = 0 ∧
    (fetch_all (fetch_all db remote fOk p false).2 remote fOk p false).2.last_uid =
      (fetch_all db remote fOk p false).2.last_uid := by
  have hdel : (fetch_all db remote fOk p false).2.deleted_uids = db.deleted_uids :=
    fetch_all_deleted_uids db remote fOk p false
  have hcand : fetchCandidates (fetch_all db remote fOk p false).2 remote false =
      fetchCandidates db remote false :=
    fetchCandidates_congr _ _ _ hdel
  cases hc : (fetchCandidates db remote false).isEmpty with
  | true =>
    have h1 := fetch_all_empty db remote fOk p false hc
    rw [h1]
    rw [fetch_all_empty db remote fOk p false hc]
    exact ⟨rfl, rfl⟩
  | false =>
    have h1 := fetch_all_nonempty db remote fOk p false hc
    have hc1 : (fetchCandidates (fetch_all db remote fOk p false).2 remote false).isEmpty = false := by
      rw [hcand]; exact hc
    have h2 := fetch_all_nonempty (fetch_all db remote fOk p false).2 remote fOk p false hc1
    have hpresent : ∀ q ∈ parsedRecords fOk p (fetchCandidates db remote false),
        ∃ c, dbLookup (fetch_all db remote fOk p false).2 q.1 = some c := by
      intro q hq
      obtain ⟨c, hcq⟩ := foldl_insertStep_mem
        (parsedRecords fOk p (fetchCandidates db remote false)) (0, db) q hq
      refine ⟨c, ?_⟩
      rw [h1]
      show dbLookup (update_sync_state _ _ _) q.1 = some c
      rw [dbLookup_update]
      exact hcq
    have hfrozen : insert_emails_batch (fetch_all db remote fOk p false).2
        (parsedRecords fOk p (fetchCandidates db remote false)) =
        (0, (fetch_all db remote fOk p false).2) :=
      foldl_insertStep_frozen _ _ hpresent
    constructor
    · rw [h2, hcand]
      show (insert_emails_batch (fetch_all db remote fOk p false).2
        (parsedRecords fOk p (fetchCandidates db remote false))).1 = 0
      rw [hfrozen]
    · rw [h2, hcand]
      show (update_sync_state _ ((fetchCandidates db remote false).foldl max 0) _).last_uid =
        (fetch_all db remote fOk p false).2.last_uid
      rw [update_sync_state_last]
      rw [h1]
      show _ = (update_sync_state _ ((fetchCandidates db remote false).foldl max 0) _).last_uid
      rw [update_sync_state_last]

/-! ## Lemmas about the deletion engine -/

lemma insertTombstone_not_mem (ts : List Nat) (v u : Nat) (h1 : u ∉ ts)
    (h2 : u ≠ v) : u ∉ insertTombstone ts v := by
  intro hmem
  unfold insertTombstone at hmem
  by_cases hv : v ∈ ts
  · rw [if_pos hv] at hmem
    exact h1 hmem
  · rw [if_neg hv] at hmem
    rcases List.mem_append.1 hmem with h | h
    · exact h1 h
    · exact h2 (by simpa using h)

lemma foldl_insertTombstone_not_mem (u : Nat) :
    ∀ (us ts : List Nat), u ∉ ts → u ∉ us → u ∉ us.foldl insertTombstone ts := by
  intro us
  induction us with
  | nil => intro ts h1 _; exact h1
  | cons v t ih =>
    intro ts h1 h2
    rw [List.foldl_cons]
    exact ih _ (insertTombstone_not_mem ts v u h1 (fun he => h2 (by simp [he])))
      (fun ht => h2 (by simp [ht]))

lemma mark_deleted_tomb (db : DB) (us : List Nat) (u : Nat)
    (h1 : u ∉ db.deleted_uids) (h2 : u ∉ us) :
    u ∉ (mark_deleted db us).deleted_uids :=
  foldl_insertTombstone_not_mem u us db.deleted_uids h1 h2

lemma mark_deleted_email (db : DB) (us : List Nat) (u : Nat) (r : EmailRecord)
    (h1 : (u, r) ∈ db.emails) (h2 : u ∉ us) :
    (u, r) ∈ (mark_deleted db us).emails := by
  show (u, r) ∈ db.emails.filter _
  rw [List.mem_filter]
  exact ⟨h1, by simpa using h2⟩

lemma foldl_mark_deleted_tomb (u : Nat) :
    ∀ (l : List (List Nat)) (db : DB), u ∉ db.deleted_uids →
      (∀ c ∈ l, u ∉ c) → u ∉ (l.foldl mark_deleted db).deleted_uids := by
  intro l
  induction l with
  | nil => intro db h _; exact h
  | cons c t ih =>
    intro db h hall
    rw [List.foldl_cons]
    exact ih _ (mark_deleted_tomb db c u h (hall c (by simp)))
      (fun x hx => hall x (by simp [hx]))

lemma foldl_mark_deleted_email (u : Nat) (r : EmailRecord) :
    ∀ (l : List (List Nat)) (db : DB), (u, r) ∈ db.emails →
      (∀ c ∈ l, u ∉ c) → (u, r) ∈ (l.foldl mark_deleted db).emails := by
  intro l
  induction l with
  | nil => intro db h _; exact h
  | cons c t ih =>
    intro db h hall
    rw [List.foldl_cons]
    exact ih _ (mark_deleted_email db c u r h (hall c (by simp)))
      (fun x hx => hall x (by simp [hx]))

lemma delete_messages_ok_fst (s : ImapSession) (c : List Nat) (expunge : Bool)
    (hc : c.isEmpty = false) :
    (delete_messages s c expunge true).1 = Except.ok c.length := by
  cases expunge <;> simp [delete_messages, hc]

lemma delete_messages_ok_expunge (s : ImapSession) (c : List Nat)
    (hc : c.isEmpty = false) :
    delete_messages s c true true =
      (Except.ok c.length,
       { mode := FolderMode.readOnly,
         mailbox := s.mailbox.filter (fun u => decide (u ∉ c)) }) := by
  simp [delete_messages, hc]

lemma delete_messages_fail (s : ImapSession) (c : List Nat) (expunge : Bool)
    (hc : c.isEmpty = false) :
    delete_messages s c expunge false =
      (Except.error "Failed to mark deleted",
       { mode := FolderMode.readWrite, mailbox := s.mailbox }) := by
  simp [delete_messages, hc]

lemma deleteRun_spec (batchOk : List Nat → Bool) :
    ∀ (l : List (List Nat)) (st : DeleteStats) (db : DB) (s : ImapSession),
      (∀ c ∈ l, c ≠ []) →
      ((l.foldl (deleteStep batchOk) (st, db, s)).1.deleted =
          st.deleted + ((l.filter batchOk).map List.length).sum ∧
       (l.foldl (deleteStep batchOk) (st, db, s)).1.errors =
          st.errors + ((l.filter (fun c => !batchOk c)).map List.length).sum ∧
       (l.foldl (deleteStep batchOk) (st, db, s)).2.1 =
          (l.filter batchOk).foldl mark_deleted db) := by
  intro l
  induction l with
  | nil => intro st db s _; exact ⟨by simp, by simp, by simp⟩
  | cons c t ih =>
    intro st db s hne
    have hcne : c ≠ [] := hne c (by simp)
    have hcE : c.isEmpty = false := by
      cases c with
      | nil => exact absurd rfl hcne
      | cons a b => rfl
    rw [List.foldl_cons]
    cases hok : batchOk c with
    | true =>
      have hstep : deleteStep batchOk (st, db, s) c =
          ({ st with deleted := st.deleted + c.length }, mark_deleted db c,
           { mode := FolderMode.readOnly,
             mailbox := s.mailbox.filter (fun u => decide (u ∉ c)) }) := by
        unfold deleteStep
        rw [hok, delete_messages_ok_expunge s c hcE]
      rw [hstep]
      obtain ⟨ih1, ih2, ih3⟩ := ih { st with deleted := st.deleted + c.length }
        (mark_deleted db c)
        { mode := FolderMode.readOnly,
          mailbox := s.mailbox.filter (fun u => decide (u ∉ c)) }
        (fun x hx => hne x (by simp [hx]))
      refine ⟨?_, ?_, ?_⟩
      · rw [ih1, List.filter_cons, if_pos (by simp [hok])]
        simp [Nat.add_assoc]
      · rw [ih2, List.filter_cons, if_neg (by simp [hok])]
      · rw [ih3, List.filter_cons, if_pos (by simp [hok]), List.foldl_cons]
    | false =>
      have hstep : deleteStep batchOk (st, db, s) c =
          ({ st with errors := st.errors + c.length }, db,
           { mode := FolderMode.readWrite, mailbox := s.mailbox }) := by
        unfold deleteStep
        rw [hok, delete_messages_fail s c true hcE]
      rw [hstep]
      obtain ⟨ih1, ih2, ih3⟩ := ih { st with errors := st.errors + c.length } db
        { mode := FolderMode.readWrite, mailbox := s.mailbox }
        (fun x hx => hne x (by simp [hx]))
      refine ⟨?_, ?_, ?_⟩
      · rw [ih1, List.filter_cons, if_neg (by simp [hok])]
      · rw [ih2, List.filter_cons, if_pos (by simp [hok])]
        simp [Nat.add_assoc]
      · rw [ih3, List.filter_cons, if_neg (by simp [hok])]

lemma delete_emails_spec (s : ImapSession) (db : DB) (uids : List Nat) (B : Nat)
    (batchOk : List Nat → Bool) (hB : 0 < B) :
    (delete_emails s db uids B batchOk).1.deleted =
        (((pyChunks B uids).filter batchOk).map List.length).sum ∧
    (delete_emails s db uids B batchOk).1.errors =
        (((pyChunks B uids).filter (fun c => !batchOk c)).map List.length).sum ∧
    (delete_emails s db uids B batchOk).2.1 =
        ((pyChunks B uids).filter batchOk).foldl mark_deleted db := by
  cases uids with
  | nil => exact ⟨by simp [delete_emails, pyChunks, chunksGo], by simp [delete_emails, pyChunks, chunksGo], by simp [delete_emails, pyChunks, chunksGo]⟩
  | cons a t =>
    have hu : (a :: t).isEmpty = false := rfl
    have hne : ∀ c ∈ pyChunks B (a :: t), c ≠ [] :=
      fun c hc => (pyChunks_mem B hB (a :: t) c hc).2
    obtain ⟨h1, h2, h3⟩ := deleteRun_spec batchOk (pyChunks B (a :: t))
      { deleted := 0, errors := 0, not_found := 0 } db s hne
    rw [show delete_emails s db (a :: t) B batchOk =
        (pyChunks B (a :: t)).foldl (deleteStep batchOk)
          ({ deleted := 0, errors := 0, not_found := 0 }, db, s) from by
      simp [delete_emails, hu]]
    exact ⟨by rw [h1]; simp, by rw [h2]; simp, h3⟩

lemma chunks_disjoint (B : Nat) (hB : 0 < B) (uids : List Nat)
    (hnd : uids.Nodup) (c c' : List Nat) (hc : c ∈ pyChunks B uids)
    (hc' : c' ∈ pyChunks B uids) (hne : c ≠ c') (u : Nat) (hu : u ∈ c) :
    u ∉ c' := by
  have hnd' : (pyChunks B uids).flatten.Nodup := by
    rw [pyChunks_join B hB uids]
    exact hnd
  have hpair := (List.nodup_flatten.1 hnd').2
  exact fun hu' => (hpair.forall (fun _ _ h => h.symm) hc hc' hne) hu hu'

/-! ## C8: per-batch failure recovery in delete_emails -/

/-- C8: when a deletion batch fails, its full size is counted into the
errors stat, no tombstone is written for a uid of that batch, the local row
for such a uid survives, and the run still processes all other batches:
the deleted stat is the full sum over the successful batches. (The uid is
assumed to appear in only the failed batch, which holds whenever the input
uid list has no duplicates.) -/
theorem delete_emails_batch_failure (s : ImapSession) (db : DB)
    (uids : List Nat) (B : Nat) (batchOk : List Nat → Bool) (c : List Nat)
    (u : Nat) (r : EmailRecord) (hB : 0 < B) (hnd : uids.Nodup)
    (hc : c ∈ pyChunks B uids) (hfail : batchOk c = false) (hu : u ∈ c)
    (htomb : u ∉ db.deleted_uids) (hrow : (u, r) ∈ db.emails) :
    (delete_emails s db uids B batchOk).1.errors =
        (((pyChunks B uids).filter (fun d => !batchOk d)).map List.length).sum ∧
    c.length ≤ (delete_emails s db uids B batchOk).1.errors ∧
    u ∉ (delete_emails s db uids B batchOk).2.1.deleted_uids ∧
    (u, r) ∈ (delete_emails s db uids B batchOk).2.1.emails ∧
    (delete_emails s db uids B batchOk).1.deleted =
        (((pyChunks B uids).filter batchOk).map List.length).sum := by
  obtain ⟨hdel, herr, hdb⟩ := delete_emails_spec s db uids B batchOk hB
  have hnotok : ∀ d ∈ (pyChunks B uids).filter batchOk, u ∉ d := by
    intro d hd
    have hd' := List.mem_filter.1 hd
    refine chunks_disjoint B hB uids hnd c d hc hd'.1 ?_ u hu
    intro he
    rw [he] at hfail
    rw [hfail] at hd'
    exact absurd hd'.2 (by simp)
  refine ⟨herr, ?_, ?_, ?_, hdel⟩
  · rw [herr]
    have hmem : c.length ∈
        (((pyChunks B uids).filter (fun d => !batchOk d)).map List.length) :=
      List.mem_map_of_mem _ (List.mem_filter.2 ⟨hc, by simp [hfail]⟩)
    exact List.single_le_sum (fun x _ => Nat.zero_le x) _ hmem
  · rw [hdb]
    exact foldl_mark_deleted_tomb u _ db htomb hnotok
  · rw [hdb]
    exact foldl_mark_deleted_email u r _ db hrow hnotok

/-- A session used by the C8 witness. -/
def sC8 : ImapSession := { mode := FolderMode.readOnly, mailbox := [1, 2, 7] }

/-- A store holding uid 7, used by the C8 witness. -/
def dbC8 : DB := { emails := [(7, recA)], last_uid := 0, total_messages := 0, deleted_uids := [] }

/-- The C8 witness failure oracle: any batch containing uid 7 fails. -/
def okC8 : List Nat → Bool := fun c => decide (7 ∉ c)

/-- C8 witness: deleting [1, 2, 7] in batches of 2 where the second batch
[7] fails yields errors for that whole batch, keeps uid 7 untombstoned and
its row intact, and still deletes the first batch of 2. -/
theorem delete_emails_batch_failure_witness :
    0 < 2 ∧ ([1, 2, 7] : List Nat).Nodup ∧ [7] ∈ pyChunks 2 [1, 2, 7] ∧
    okC8 [7] = false ∧ 7 ∈ [7] ∧ 7 ∉ dbC8.deleted_uids ∧
    (7, recA) ∈ dbC8.emails ∧
    ((delete_emails sC8 dbC8 [1, 2, 7] 2 okC8).1.errors =
        (((pyChunks 2 [1, 2, 7]).filter (fun d => !okC8 d)).map List.length).sum ∧
      ([7] : List Nat).length ≤ (delete_emails sC8 dbC8 [1, 2, 7] 2 okC8).1.errors ∧
      7 ∉ (delete_emails sC8 dbC8 [1, 2, 7] 2 okC8).2.1.deleted_uids ∧
      (7, recA) ∈ (delete_emails sC8 dbC8 [1, 2, 7] 2 okC8).2.1.emails ∧
      (delete_emails sC8 dbC8 [1, 2, 7] 2 okC8).1.deleted =
        (((pyChunks 2 [1, 2, 7]).filter okC8).map List.length).sum) :=
  ⟨by decide, by decide, by decide, by decide, by decide, by decide, by decide,
   delete_emails_batch_failure sC8 dbC8 [1, 2, 7] 2 okC8 [7] 7 recA
     (by decide) (by decide) (by decide) (by decide) (by decide) (by decide)
     (by decide)⟩

/-! ## C10: the deleted count is the input size, not a remote confirmation -/

/-- C10: whenever the STORE command reports success, `delete_messages`
returns the length of its input uid list, whatever the remote mailbox
contains; consequently the deleted stat of `delete_emails` equals the total
number of uids across all successful batches. -/
theorem delete_messages_counts (s : ImapSession) (uids : List Nat)
    (expunge : Bool) (s₂ : ImapSession) (db₂ : DB) (uids₂ : List Nat)
    (B : Nat) (batchOk : List Nat → Bool) (h : uids ≠ []) (hB : 0 < B) :
    (delete_messages s uids expunge true).1 = Except.ok uids.length ∧
    (delete_emails s₂ db₂ uids₂ B batchOk).1.deleted =
      (((pyChunks B uids₂).filter batchOk).map List.length).sum := by
  have hc : uids.isEmpty = false := by
    cases uids with
    | nil => exact absurd rfl h
    | cons a t => rfl
  exact ⟨delete_messages_ok_fst s uids expunge hc,
    (delete_emails_spec s₂ db₂ uids₂ B batchOk hB).1⟩

/-- A session whose remote mailbox holds only uid 1, for the C10 witness. -/
def sC10 : ImapSession := { mode := FolderMode.readOnly, mailbox := [1] }

/-- C10 witness: deleting uids [1, 2, 3] when only uid 1 exists remotely
still reports 3 deletions; a delete_emails run over [4, 5, 6] in batches of
2 with every batch succeeding reports deleted = 3. -/
theorem delete_messages_counts_witness :
    ([1, 2, 3] : List Nat) ≠ [] ∧ 0 < 2 ∧
    ((delete_messages sC10 [1, 2, 3] true true).1 =
        Except.ok ([1, 2, 3] : List Nat).length ∧
      (delete_emails sC10 dbEmpty [4, 5, 6] 2 (fun _ => true)).1.deleted =
        (((pyChunks 2 [4, 5, 6]).filter (fun _ => true)).map List.length).sum) :=
  ⟨by decide, by decide,
   delete_messages_counts sC10 [1, 2, 3] true sC10 dbEmpty [4, 5, 6] 2
     (fun _ => true) (by decide) (by decide)⟩

/-! ## C9: the normalizers never raise -/

/-- C9: for every input and every behavior of the underlying stdlib calls,
header decoding and date parsing return normally rather than raising:
`decode_header_value` always returns a string, which is the joined decoded
parts when the pipeline succeeds and falls back to the original value as a
string when any uncaught decode step raises; `parse_date` always returns a
value, which is the parsed ISO timestamp on success and the explicit
unknown marker None exactly when the input is empty or the date parser
raises. -/
theorem normalizers_never_raise {Bytes : Type} (O : DecodeOracle Bytes)
    (value : Option String) (pd : String → Except PyErr String) (d : String) :
    (∃ s, decode_header_value O value = Except.ok s) ∧
    (decode_header_value O value = Except.ok
      (match value with
       | none => ""
       | some v =>
         if v = "" then ""
         else
           match O.decodeHeaderFn v with
           | Except.error _ => v
           | Except.ok parts =>
             match decodeParts O parts with
             | Except.error _ => v
             | Except.ok ss => String.join ss)) ∧
    parse_date pd d = Except.ok
      (if d = "" then none else exceptToOption (pd d)) := by
  refine ⟨?_, ?_, ?_⟩
  · cases value with
    | none => exact ⟨"", rfl⟩
    | some v =>
      by_cases hv : v = ""
      · exact ⟨"", by simp [decode_header_value, hv]⟩
      · cases hh : O.decodeHeaderFn v with
        | error e => exact ⟨v, by simp [decode_header_value, hv, hh]⟩
        | ok parts =>
          cases hp : decodeParts O parts with
          | error e => exact ⟨v, by simp [decode_header_value, hv, hh, hp]⟩
          | ok ss => exact ⟨String.join ss, by simp [decode_header_value, hv, hh, hp]⟩
  · cases value with
    | none => rfl
    | some v =>
      by_cases hv : v = ""
      · simp [decode_header_value, hv]
      · cases hh : O.decodeHeaderFn v with
        | error e => simp [decode_header_value, hv, hh]
        | ok parts =>
          cases hp : decodeParts O parts with
          | error e => simp [decode_header_value, hv, hh, hp]
          | ok ss => simp [decode_header_value, hv, hh, hp]
  · by_cases hd : d = ""
    · simp [parse_date, hd]
    · cases hpd : pd d with
      | ok iso => simp [parse_date, hd, hpd, exceptToOption]
      | error e => simp [parse_date, hd, hpd, exceptToOption]
